import Mathlib

/-!
Verification of the fastapi-gen scaffolding CLI (`src/cli/__main__.py`).

Modelling conventions of this shallow embedding:

* Python strings (file contents, file names, project names) are lists of
  characters (`PyStr`).
* A filesystem tree is the inductive `Fs`: a file with its text content, or a
  directory given as a chain of named entries.  Real directories are
  unordered; lookups here use first-match semantics (`find?`), which agrees
  with real filesystems on the duplicate-free trees they can represent.
* Python `str.replace` is `replaceAll`, a left-to-right non-overlapping scan;
  the recursion is fuelled by the length of the scanned string so that every
  definition reduces inside `decide`/`rfl`.
* Fallible filesystem operations return `Except PyError Fs`; an uncaught
  Python exception is a `.error`, and the orchestrator's result is an
  `Outcome` (clean `sys.exit`, success banner, or crash).
* The ambient machine state (current working directory, the two template
  locations, whether `importlib.resources` raises, whether the `git`
  executable exists) is the structure `Env`.
-/

/-- Python strings are modelled as lists of characters. -/
abbrev PyStr := List Char

/-- A filesystem node: a file with text content, or a directory.  A directory
is a chain built from `nil` (empty) and `cons name entry rest` (first entry
`name` bound to `entry`, remaining entries `rest`). -/
inductive Fs where
  | file (content : PyStr) : Fs
  | nil : Fs
  | cons (name : PyStr) (entry : Fs) (rest : Fs) : Fs
deriving DecidableEq

/-- First entry of a directory bound to `n`, if any.  Looking inside a file
finds nothing. -/
def find? (n : PyStr) : Fs → Option Fs
  | .file _ => none
  | .nil => none
  | .cons m e rest => if m = n then some e else find? n rest

/-- Follow a path (a list of component names) down a tree. -/
def lookup? : Fs → List PyStr → Option Fs
  | e, [] => some e
  | e, n :: p =>
    match find? n e with
    | some e2 => lookup? e2 p
    | none => none

/-- Replace the first entry bound to `k` with `v` (no change if absent). -/
def setFirst (k : PyStr) (v : Fs) : Fs → Fs
  | .cons m e rest => if m = k then .cons m v rest else .cons m e (setFirst k v rest)
  | t => t

/-- Remove the first entry bound to `k` (no change if absent). -/
def removeFirst (k : PyStr) : Fs → Fs
  | .cons m e rest => if m = k then rest else .cons m e (removeFirst k rest)
  | t => t

/-- Rename the first entry bound to `old` to `new`, in place. -/
def renameFirst (old new : PyStr) : Fs → Fs
  | .cons m e rest =>
    if m = old then .cons new e rest else .cons m e (renameFirst old new rest)
  | t => t

/-- Membership in the character class `[a-zA-Z0-9_]` of `_pattern`
(line 17 of `__main__.py`). -/
def isWordChar (c : Char) : Bool :=
  ('a' ≤ c && c ≤ 'z') || ('A' ≤ c && c ≤ 'Z') || ('0' ≤ c && c ≤ '9') || c = '_'

/-- Embeds `is_valid_name` (line 30): `re.match(r"^[a-zA-Z0-9_]+$", name)`.
Per Python's `re` documentation, `$` matches at the end of the string *or
just before a newline at the end of the string*, and `[a-zA-Z0-9_]` never
matches a newline; so the regex accepts exactly the non-empty all-word-char
strings together with such a string followed by one trailing newline. -/
def is_valid_name (name : PyStr) : Bool :=
  (!name.isEmpty && name.all isWordChar) ||
    (name.getLast? == some '\n' && !name.dropLast.isEmpty && name.dropLast.all isWordChar)

/-- The fixed `exclude_patterns` set of `copy_template` (lines 36-44). -/
def exclude_patterns : List PyStr :=
  ["__pycache__".data, ".pytest_cache".data, ".ruff_cache".data, ".venv".data,
    "venv".data, ".git".data, "uv.lock".data]

/-- Embeds `ignore_function` (line 46): an entry name is ignored iff it is in
`exclude_patterns`. -/
def ignore_function (n : PyStr) : Bool := exclude_patterns.contains n

/-- Embeds `copy_template` (lines 34-58): the top-level loop skips excluded
names (`continue`), and `shutil.copytree(..., ignore=ignore_function)`
applies the same exclusion at every directory level below; files are copied
byte-for-byte (`copy2`).  The result is the source tree with every entry
whose name is excluded dropped, at every level. -/
def copy_template : Fs → Fs
  | .file c => .file c
  | .nil => .nil
  | .cons n e rest =>
    if ignore_function n then copy_template rest
    else .cons n (copy_template e) (copy_template rest)

/-- Scanner of `replaceAll` for a non-empty pattern `a :: p`: at each
position, if the pattern starts here, emit `q` and continue after the match,
else keep one character.  `fuel` bounds the scan; calls always supply at
least the string's length, so the `0` case is never reached on a non-empty
string. -/
def replGo (a : Char) (p q : PyStr) : Nat → PyStr → PyStr
  | 0, s => s
  | _ + 1, [] => []
  | fuel + 1, c :: t =>
    if (a :: p).isPrefixOf (c :: t) then q ++ replGo a p q fuel (t.drop p.length)
    else c :: replGo a p q fuel t

/-- Embeds Python `str.replace(pat, q)`: replace every occurrence of `pat`,
scanning left to right without overlap.  For the empty pattern Python
inserts `q` at every character boundary. -/
def replaceAll (s pat q : PyStr) : PyStr :=
  match pat with
  | [] => q ++ s.flatMap (fun c => c :: q)
  | a :: p => replGo a p q s.length s

/-- Python `\s` on ASCII text: space, tab, newline, vertical tab, form feed,
carriage return. -/
def isPySpace (c : Char) : Bool :=
  c = ' ' || c = '\t' || c = '\n' || c = '\x0b' || c = '\x0c' || c = '\r'

/-- Does the regex `name\s*=\s*"[^"]+` of `rename_package_in_pyproject`
(line 66) match at the head of `s`?  If so, return the length of the
(greedy) match: literal `name`, spaces, `=`, spaces, `"`, then a non-empty
maximal run of non-quote characters. -/
def matchNameAssign (s : PyStr) : Option Nat :=
  if ("name".data).isPrefixOf s then
    let s1 := s.drop 4
    let sp1 := (s1.takeWhile isPySpace).length
    match s1.drop sp1 with
    | '=' :: s3 =>
      let sp2 := (s3.takeWhile isPySpace).length
      match s3.drop sp2 with
      | '"' :: s5 =>
        let body := (s5.takeWhile (fun c => !(c = '"'))).length
        if body = 0 then none else some (4 + sp1 + 1 + sp2 + 1 + body)
      | _ => none
    | _ => none
  else none

/-- Leftmost-first single substitution (`re.sub(..., count=1)`): scan for the
first position where the name-assignment pattern matches and splice in
`name = "` followed by the new name (the match, like the pattern, does not
cover the closing quote). -/
def subNameGo (new_name : PyStr) : Nat → PyStr → PyStr
  | 0, s => s
  | _ + 1, [] => []
  | fuel + 1, c :: t =>
    match matchNameAssign (c :: t) with
    | some len => "name = \"".data ++ new_name ++ (c :: t).drop len
    | none => c :: subNameGo new_name fuel t

/-- Embeds `rename_package_in_pyproject` (lines 61-68) as a function on the
manifest's text content. -/
def rename_package_in_pyproject (content new_name : PyStr) : PyStr :=
  subNameGo new_name content.length content

/-- Embeds `update_scripts_in_pyproject` (lines 71-78) as a function on the
manifest's text content: `content.replace(f"{old_module}.", f"{new_module}.")`. -/
def update_scripts_in_pyproject (content old_module new_module : PyStr) : PyStr :=
  replaceAll content (old_module ++ ".".data) (new_module ++ ".".data)

/-- Python exceptions that the modelled code can raise (uncaught). -/
inductive PyError where
  | keyError : PyError
  | fileNotFoundError : PyError
  | isADirectoryError : PyError
  | notADirectoryError : PyError
  | dirNotEmptyError : PyError
deriving DecidableEq

/-- Embeds `rename_src_directory` (lines 81-87): if `dest/src/old_name`
exists, `Path.rename` it to `dest/src/new_name`.  `Path.rename` is POSIX
`rename(2)`: renaming a path to itself succeeds and is a no-op; renaming
onto an existing empty directory (directory source) or an existing file
(file source) silently replaces it; renaming onto a non-empty directory
fails `ENOTEMPTY`; and a kind mismatch raises
`IsADirectoryError`/`NotADirectoryError`. -/
def rename_src_directory (dest : Fs) (old_name new_name : PyStr) : Except PyError Fs :=
  match find? ("src".data) dest with
  | some srcDir =>
    match find? old_name srcDir with
    | some oldE =>
      if old_name = new_name then .ok dest
      else
        match find? new_name srcDir with
        | none => .ok (setFirst ("src".data) (renameFirst old_name new_name srcDir) dest)
        | some (.file _) =>
          match oldE with
          | .file _ =>
            .ok (setFirst ("src".data) (setFirst new_name oldE (removeFirst old_name srcDir)) dest)
          | _ => .error .notADirectoryError
        | some .nil =>
          match oldE with
          | .file _ => .error .isADirectoryError
          | _ =>
            .ok (setFirst ("src".data) (setFirst new_name oldE (removeFirst old_name srcDir)) dest)
        | some (.cons _ _ _) => .error .dirNotEmptyError
    | none => .ok dest
  | _ => .ok dest

/-- Does a file name match the glob `*.py`, excluding `__init__.py`
(lines 95-97)?  `pathlib` glob is case-sensitive and does not skip dotfiles,
so the glob matches exactly the names ending in `.py`. -/
def pyTestTarget (n : PyStr) : Bool :=
  (".py".data).isSuffixOf n && !(n == "__init__.py".data)

/-- The two literal substitutions of `update_imports_in_tests`
(lines 100-101), in source order. -/
def update_test_content (content old_module new_module : PyStr) : PyStr :=
  replaceAll
    (replaceAll content ("from ".data ++ old_module ++ ".".data)
      ("from ".data ++ new_module ++ ".".data))
    ("import ".data ++ old_module) ("import ".data ++ new_module)

/-- Embeds `update_imports_in_tests` (lines 90-102) on the tests directory:
every `*.py` entry other than `__init__.py` is read, rewritten with
`update_test_content`, and written back; other entries are untouched.
`read_text` on a directory raises `IsADirectoryError`; globbing a
non-directory path yields nothing, so a file node is returned unchanged. -/
def update_imports_in_tests (old_module new_module : PyStr) : Fs → Except PyError Fs
  | .file c => .ok (.file c)
  | .nil => .ok .nil
  | .cons n e rest =>
    if pyTestTarget n then
      match e with
      | .file c =>
        (update_imports_in_tests old_module new_module rest).map
          (Fs.cons n (.file (update_test_content c old_module new_module)))
      | .nil => .error .isADirectoryError
      | .cons _ _ _ => .error .isADirectoryError
    else (update_imports_in_tests old_module new_module rest).map (Fs.cons n e)

/-- Lines 151-156 of `main`: if `dest/pyproject.toml` exists, rename the
package and then rewrite the script module names, writing the file back. -/
def pyproject_step (dest : Fs) (old_module new_name : PyStr) : Except PyError Fs :=
  match find? ("pyproject.toml".data) dest with
  | none => .ok dest
  | some (.file c) =>
    .ok (setFirst ("pyproject.toml".data)
      (.file (update_scripts_in_pyproject (rename_package_in_pyproject c new_name)
        old_module new_name)) dest)
  | some _ => .error .isADirectoryError

/-- Lines 163-165 of `main`: if `dest/tests` exists, update the imports in
the test files it directly contains. -/
def tests_step (dest : Fs) (old_module new_name : PyStr) : Except PyError Fs :=
  match find? ("tests".data) dest with
  | none => .ok dest
  | some t =>
    (update_imports_in_tests old_module new_name t).map
      (fun t2 => setFirst ("tests".data) t2 dest)

/-- The copy-then-rewrite pipeline of `main` (lines 147-165): copy the
template (with exclusions), rewrite the manifest, rename the source package
directory, rewrite the test imports. -/
def scaffold (template : Fs) (old_module new_name : PyStr) : Except PyError Fs :=
  (pyproject_step (copy_template template) old_module new_name).bind fun d1 =>
    (rename_src_directory d1 old_module new_name).bind fun d2 =>
      tests_step d2 old_module new_name

/-- The `click.Choice` list `_choices` (line 18). -/
def _choices : List PyStr :=
  ["hello_world".data, "advanced".data, "nlp".data, "langchain".data, "llama".data]

/-- The static `_template_map` (lines 21-27): template key to
(source package name, internal module name). -/
def _template_map (t : PyStr) : Option (PyStr × PyStr) :=
  if t = "hello_world".data then some ("template-hello-world".data, "hello_world".data)
  else if t = "advanced".data then some ("template-advanced".data, "advanced".data)
  else if t = "nlp".data then some ("template-nlp".data, "nlp".data)
  else if t = "langchain".data then some ("template-langchain".data, "langchain_app".data)
  else if t = "llama".data then some ("template-llama".data, "llama_app".data)
  else none

/-- The template option `-t` (line 106): absent means the default
`hello_world`; present, it must be one of `_choices` (else `click` rejects
the invocation). -/
def parse_template_option : Option PyStr → Option PyStr
  | none => some ("hello_world".data)
  | some t => if _choices.contains t then some t else none

/-- Line 137: the development-mode template path is
`Path(__file__).parent.parent.parent / "packages" / template_package_name`,
a fixed relative offset (three `parent`s) from the program's own file
joined with the template's source package name. -/
def dev_template_path (main_file : List PyStr) (pkg : PyStr) : List PyStr :=
  main_file.dropLast.dropLast.dropLast ++ ["packages".data, pkg]

/-- The ambient machine state `main` runs against. `installed`/`dev` hold
the tree at the installed-resource path (`cli/templates/<pkg>`) resp. the
development path (`packages/<pkg>`), `none` when that path does not exist;
`resources_raises` models `resources.files` raising one of the caught
exception types; `git_available` models whether a `git` executable can be
found; `git_exit` is the exit status `git init` would return. -/
structure Env where
  cwd : Fs
  resources_raises : Bool
  installed : Option Fs
  dev : Option Fs
  git_available : Bool
  git_exit : Nat

/-- Which of the two template locations resolution picked. -/
inductive TemplateLoc where
  | installedLoc : TemplateLoc
  | devLoc : TemplateLoc
deriving DecidableEq

/-- Lines 125-142: try the installed-resource location first (a raise from
`resources.files` is caught and treated as absence), then the
development-mode location; `none` means neither exists. -/
def resolveTemplate (env : Env) : Option (TemplateLoc × Fs) :=
  match (if env.resources_raises then none else env.installed) with
  | some t => some (.installedLoc, t)
  | none => env.dev.map (fun t => (.devLoc, t))

/-- How a run of `main` ends: a clean `sys.exit(code)`, the success banner
(return 0), or an uncaught exception (non-zero exit, no banner). -/
inductive Outcome where
  | exited (code : Nat) : Outcome
  | ok : Outcome
  | crashed (e : PyError) : Outcome
deriving DecidableEq

/-- Embeds `main` (lines 105-200): validate the name, refuse an existing
destination, look up the template descriptor, resolve the template
directory, `mkdir` the destination, copy, run the three rewrite steps, then
`subprocess.run(["git", "init"], capture_output=True)` — which ignores the
exit status of `git` but raises `FileNotFoundError` when no `git` executable
exists, after `os.chdir` and before the banner.  Returns the outcome paired
with the final state of the working directory. -/
def runMain (env : Env) (name template : PyStr) : Outcome × Fs :=
  if !(is_valid_name name) then (.exited 1, env.cwd)
  else if (find? name env.cwd).isSome then (.exited 1, env.cwd)
  else
    match _template_map template with
    | none => (.crashed .keyError, env.cwd)
    | some (_pkg, old_module) =>
      match resolveTemplate env with
      | none => (.exited 1, env.cwd)
      | some (_, .file _) => (.crashed .notADirectoryError, .cons name .nil env.cwd)
      | some (_, tdir) =>
        let d0 := copy_template tdir
        match pyproject_step d0 old_module name with
        | .error e => (.crashed e, .cons name d0 env.cwd)
        | .ok d1 =>
          match rename_src_directory d1 old_module name with
          | .error e => (.crashed e, .cons name d1 env.cwd)
          | .ok d2 =>
            match tests_step d2 old_module name with
            | .error e => (.crashed e, .cons name d2 env.cwd)
            | .ok d3 =>
              if env.git_available then (.ok, .cons name d3 env.cwd)
              else (.crashed .fileNotFoundError, .cons name d3 env.cwd)

/-- Real directory chains terminate in `nil`: the `rest` of a `cons` is never
a file.  Every tree a real filesystem can present is well-formed. -/
def wf : Fs → Bool
  | .file _ => true
  | .nil => true
  | .cons _ e rest =>
    wf e && wf rest && (match rest with | .file _ => false | _ => true)

/-- Conditions under which rewriting occurrences of some pattern into `q`
can neither keep nor create an occurrence of `r`: `r` does not occur in `q`,
`q` does not occur in `r`, no nonempty suffix of `q` is a proper prefix of
`r`, and no nonempty proper suffix of `r` is a prefix of `q`. -/
def SafeRepl (r q : PyStr) : Prop :=
  (¬ r <:+: q) ∧ (¬ q <:+: r) ∧
    (∀ b ∈ q.tails, b <+: r → b = [] ∨ b = r) ∧
    (∀ b ∈ r.tails, b <+: q → b = [] ∨ b = r)

instance (r q : PyStr) : Decidable (SafeRepl r q) := by
  unfold SafeRepl
  exact inferInstance

/-- The literal substitution pattern `from {module}.` of line 100. -/
def fromPat (module : PyStr) : PyStr := "from ".data ++ module ++ ".".data

/-- The literal substitution pattern `import {module}` of line 101. -/
def impPat (module : PyStr) : PyStr := "import ".data ++ module


/-! ## Basic lemmas about directory operations -/

theorem pre_nil {α : Type} (l : List α) : [] <+: l := ⟨l, rfl⟩

theorem isPre_iff {p s : PyStr} : p.isPrefixOf s = true ↔ p <+: s :=
  List.isPrefixOf_iff_prefix

theorem inf_cons_iff {r : PyStr} {a : Char} {l : PyStr} :
    r <:+: a :: l ↔ r <+: a :: l ∨ r <:+: l :=
  List.infix_cons_iff

theorem pre_cons_iff {r : PyStr} {a : Char} {l : PyStr} :
    r <+: a :: l ↔ r = [] ∨ ∃ t, r = a :: t ∧ t <+: l :=
  List.prefix_cons_iff

theorem find?_setFirst_ne {n k : PyStr} (v : Fs) (d : Fs) (hnk : n ≠ k) :
    find? n (setFirst k v d) = find? n d := by
  induction d with
  | file c => rfl
  | nil => rfl
  | cons m e rest ihe ihr =>
    simp only [setFirst]
    by_cases hmk : m = k
    · subst hmk
      have hmn : ¬ m = n := fun h => hnk (h ▸ rfl)
      simp [find?, hmn]
    · simp [find?, hmk, ihr]

theorem find?_setFirst_self {k : PyStr} (v : Fs) (d : Fs) (h : (find? k d).isSome) :
    find? k (setFirst k v d) = some v := by
  induction d with
  | file c => simp [find?] at h
  | nil => simp [find?] at h
  | cons m e rest ihe ihr =>
    by_cases hmk : m = k
    · subst hmk; simp [setFirst, find?]
    · simp only [find?, if_neg (fun h2 => hmk h2)] at h
      simp [setFirst, find?, hmk, ihr h]

theorem find?_removeFirst_ne {n k : PyStr} (d : Fs) (hnk : n ≠ k) :
    find? n (removeFirst k d) = find? n d := by
  induction d with
  | file c => rfl
  | nil => rfl
  | cons m e rest ihe ihr =>
    simp only [removeFirst]
    by_cases hmk : m = k
    · subst hmk
      have hmn : ¬ m = n := fun h => hnk (h ▸ rfl)
      simp [find?, hmn]
    · simp [find?, hmk, ihr]

theorem find?_renameFirst_ne {n old new : PyStr} (d : Fs) (hno : n ≠ old) (hnn : n ≠ new) :
    find? n (renameFirst old new d) = find? n d := by
  induction d with
  | file c => rfl
  | nil => rfl
  | cons m e rest ihe ihr =>
    simp only [renameFirst]
    by_cases hmo : m = old
    · subst hmo
      have h1 : ¬ new = n := fun h => hnn (h ▸ rfl)
      have h2 : ¬ m = n := fun h => hno (h ▸ rfl)
      simp [find?, h1, h2]
    · simp [find?, hmo, ihr]

theorem wf_find? {n : PyStr} {d e : Fs} (hwf : wf d = true) (h : find? n d = some e) :
    wf e = true := by
  induction d with
  | file c => simp [find?] at h
  | nil => simp [find?] at h
  | cons m e0 rest ihe ihr =>
    simp only [wf, Bool.and_eq_true] at hwf
    simp only [find?] at h
    by_cases hmn : m = n
    · rw [if_pos hmn] at h
      cases h; exact hwf.1.1
    · rw [if_neg hmn] at h
      exact ihr hwf.1.2 h

theorem wf_lookup? {d e : Fs} {p : List PyStr} (hwf : wf d = true)
    (h : lookup? d p = some e) : wf e = true := by
  induction p generalizing d with
  | nil => simp only [lookup?] at h; cases h; exact hwf
  | cons n p ih =>
    simp only [lookup?] at h
    cases hfe : find? n d with
    | none => rw [hfe] at h; cases h
    | some e2 => rw [hfe] at h; exact ih (wf_find? hwf hfe) h

/-! ## Lemmas about `copy_template` -/

/-- A well-formed directory node (not a file) stays a directory node under
copying. -/
theorem copy_template_dirNode {d : Fs} (hwf : wf d = true)
    (hd : match d with | .file _ => False | _ => True) :
    match copy_template d with | .file _ => False | _ => True := by
  induction d with
  | file c => exact hd
  | nil => trivial
  | cons m e rest ihe ihr =>
    simp only [wf, Bool.and_eq_true] at hwf
    simp only [copy_template]
    by_cases him : ignore_function m
    · rw [if_pos him]
      refine ihr hwf.1.2 ?_
      cases rest with
      | file c => simp at hwf
      | nil => trivial
      | cons a b c => trivial
    · rw [if_neg him]; trivial

/-- Copying inverts on files: only a file copies to a file (on well-formed
trees). -/
theorem copy_template_file_inv {d : Fs} {c : PyStr} (hwf : wf d = true)
    (h : copy_template d = .file c) : d = .file c := by
  cases d with
  | file c0 => simpa [copy_template] using h
  | nil => simp [copy_template] at h
  | cons m e rest =>
    exfalso
    have := copy_template_dirNode hwf (d := .cons m e rest) trivial
    rw [h] at this
    exact this

theorem find?_copy_template (n : PyStr) (d : Fs) :
    find? n (copy_template d) =
      if ignore_function n then none else (find? n d).map copy_template := by
  induction d with
  | file c => simp [copy_template, find?]
  | nil => simp [copy_template, find?]
  | cons m e rest ihe ihr =>
    simp only [copy_template]
    by_cases him : ignore_function m
    · rw [if_pos him, ihr]
      by_cases hmn : m = n
      · subst hmn; simp [find?, him]
      · simp [find?, hmn]
    · rw [if_neg him]
      simp only [find?]
      by_cases hmn : m = n
      · subst hmn; simp [him]
      · simp [hmn, ihr]

theorem lookup?_copy_template (p : List PyStr) (d : Fs) :
    lookup? (copy_template d) p =
      if p.any ignore_function then none else (lookup? d p).map copy_template := by
  induction p generalizing d with
  | nil => simp [lookup?]
  | cons n p ih =>
    simp only [lookup?, List.any_cons]
    rw [find?_copy_template]
    by_cases hn : ignore_function n
    · simp [hn]
    · simp only [hn, Bool.false_or, if_neg (by simp : ¬ (false : Bool) = true)]
      cases hfe : find? n d with
      | none => simp
      | some e2 => simp [ih]

/-! ## Occurrence lemmas for `replaceAll` -/

theorem pre_append_cases {b x y : PyStr} (h : b <+: x ++ y) :
    b <+: x ∨ ∃ b2, b = x ++ b2 ∧ b2 <+: y := by
  induction x generalizing b with
  | nil => exact .inr ⟨b, rfl, h⟩
  | cons c x ih =>
    rcases pre_cons_iff.mp h with rfl | ⟨t, rfl, ht⟩
    · exact .inl (pre_nil _)
    · rcases ih ht with h1 | ⟨b2, rfl, hb2⟩
      · exact .inl (List.cons_prefix_cons.mpr ⟨rfl, h1⟩)
      · exact .inr ⟨b2, rfl, hb2⟩

theorem inf_append_cases {r x y : PyStr} (h : r <:+: x ++ y) :
    r <:+: x ∨ r <:+: y ∨
      ∃ r1 r2, r = r1 ++ r2 ∧ r1 ≠ [] ∧ r2 ≠ [] ∧ r1 <:+ x ∧ r2 <+: y := by
  induction x generalizing r with
  | nil => exact .inr (.inl h)
  | cons c x ih =>
    rcases inf_cons_iff.mp (by simpa using h) with hp | hi
    · rcases pre_cons_iff.mp hp with rfl | ⟨t, rfl, ht⟩
      · exact .inl ((pre_nil _).isInfix)
      · rcases pre_append_cases ht with h1 | ⟨r2, rfl, hr2⟩
        · exact .inl (List.cons_prefix_cons.mpr ⟨rfl, h1⟩).isInfix
        · by_cases hr2e : r2 = []
          · subst hr2e
            exact .inl (by simp [(List.suffix_refl (c :: x)).isInfix])
          · exact .inr (.inr ⟨c :: x, r2, by simp, by simp, hr2e,
              List.suffix_refl _, hr2⟩)
    · rcases ih hi with h1 | h1 | ⟨r1, r2, rfl, h1, h2, h3, h4⟩
      · exact .inl (h1.trans (List.suffix_cons c x).isInfix)
      · exact .inr (.inl h1)
      · exact .inr (.inr ⟨r1, r2, rfl, h1, h2, h3.trans (List.suffix_cons c x), h4⟩)

/-- If a nonempty prefix-piece of `r` survives at the front of a rewritten
string, it was already at the front of the original string. -/
theorem repl_aux (a : Char) (p q r : PyStr) (h1 : ¬ r <:+: q) (h4 : ¬ q <:+: r)
    (h3 : ∀ b, b <:+ r → b <+: q → b = [] ∨ b = r) :
    ∀ fuel s b, b ≠ [] → b <:+ r → b <+: replGo a p q fuel s → b <+: s := by
  intro fuel
  induction fuel with
  | zero => intro s b _ _ hb; exact hb
  | succ fuel ih =>
    intro s b hne hsuf hpre
    match s with
    | [] =>
      rw [replGo] at hpre
      simp only [List.prefix_nil] at hpre
      exact absurd hpre hne
    | c :: t =>
      rw [replGo] at hpre
      by_cases hm : (a :: p).isPrefixOf (c :: t)
      · rw [if_pos hm] at hpre
        rcases pre_append_cases hpre with hq | ⟨b2, rfl, hb2⟩
        · rcases h3 b hsuf hq with rfl | rfl
          · exact absurd rfl hne
          · exact absurd (hq.isInfix) h1
        · exact absurd ((List.prefix_append q b2).isInfix.trans hsuf.isInfix) h4
      · rw [if_neg hm] at hpre
        rcases pre_cons_iff.mp hpre with rfl | ⟨b', rfl, hb'⟩
        · exact absurd rfl hne
        · by_cases hbe : b' = []
          · subst hbe
            exact List.cons_prefix_cons.mpr ⟨rfl, pre_nil t⟩
          · have hsuf' : b' <:+ r := List.IsSuffix.trans ⟨[c], rfl⟩ hsuf
            exact List.cons_prefix_cons.mpr ⟨rfl, ih t b' hbe hsuf' hb'⟩

/-- Main occurrence theorem: under `SafeRepl`-style conditions, after
rewriting pattern `a :: p` into `q`, the string contains no occurrence of
`r` — provided `r` is the pattern itself, or did not occur beforehand. -/
theorem repl_main (a : Char) (p q r : PyStr) (hr : r ≠ []) (h1 : ¬ r <:+: q)
    (h4 : ¬ q <:+: r)
    (h2 : ∀ b, b <:+ q → b <+: r → b = [] ∨ b = r)
    (h3 : ∀ b, b <:+ r → b <+: q → b = [] ∨ b = r) :
    ∀ fuel s, s.length ≤ fuel → (r = a :: p ∨ ¬ r <:+: s) →
      ¬ r <:+: replGo a p q fuel s := by
  intro fuel
  induction fuel with
  | zero =>
    intro s hlen _ hocc
    have hs : s = [] := List.length_eq_zero.mp (Nat.le_zero.mp hlen)
    subst hs
    rw [replGo] at hocc
    rw [List.infix_nil] at hocc
    exact hr hocc
  | succ fuel ih =>
    intro s hlen hbase hocc
    match s with
    | [] =>
      rw [replGo] at hocc
      rw [List.infix_nil] at hocc
      exact hr hocc
    | c :: t =>
      rw [replGo] at hocc
      by_cases hm : (a :: p).isPrefixOf (c :: t)
      · rw [if_pos hm] at hocc
        rcases inf_append_cases hocc with hq | hG | ⟨r1, r2, heq, hr1, hr2, hr1q, hr2p⟩
        · exact h1 hq
        · have hlen' : (t.drop p.length).length ≤ fuel := by
            simp only [List.length_drop]
            simp only [List.length_cons] at hlen
            omega
          refine ih _ hlen' ?_ hG
          rcases hbase with hb | hb
          · exact .inl hb
          · refine .inr fun hcon => hb (hcon.trans ?_)
            exact ((List.drop_suffix _ _).trans (List.suffix_cons c t)).isInfix
        · rcases h2 r1 hr1q ⟨r2, heq.symm⟩ with rfl | hreq
          · exact hr1 rfl
          · rw [← hreq] at heq
            exact hr2 (List.self_eq_append_right.mp heq)
      · rw [if_neg hm] at hocc
        rcases inf_cons_iff.mp hocc with hpre | hocc'
        · rcases pre_cons_iff.mp hpre with rfl | ⟨r', hreq, hr'⟩
          · exact hr rfl
          · by_cases hre : r' = []
            · subst hre
              have hrs : r <+: c :: t := by
                rw [hreq]; exact List.cons_prefix_cons.mpr ⟨rfl, pre_nil t⟩
              rcases hbase with hb | hb
              · exact hm (isPre_iff.mpr (hb ▸ hrs))
              · exact hb hrs.isInfix
            · have hsuf' : r' <:+ r := by rw [hreq]; exact ⟨[c], rfl⟩
              have hpt : r' <+: t := repl_aux a p q r h1 h4 h3 fuel t r' hre hsuf' hr'
              have hrs : r <+: c :: t := by
                rw [hreq]; exact List.cons_prefix_cons.mpr ⟨rfl, hpt⟩
              rcases hbase with hb | hb
              · exact hm (isPre_iff.mpr (hb ▸ hrs))
              · exact hb hrs.isInfix
        · have hlen' : t.length ≤ fuel := by
            simp only [List.length_cons] at hlen
            omega
          refine ih t hlen' ?_ hocc'
          rcases hbase with hb | hb
          · exact .inl hb
          · exact .inr fun hcon => hb (hcon.trans (List.suffix_cons c t).isInfix)

/-- `str.replace(pat, q)` leaves no occurrence of `r` when `SafeRepl r q`
holds and `r` is the pattern itself or was absent to begin with. -/
theorem replaceAll_no_occ (s pat q r : PyStr) (hp : pat ≠ []) (hr : r ≠ [])
    (hS : SafeRepl r q) (hbase : r = pat ∨ ¬ r <:+: s) :
    ¬ r <:+: replaceAll s pat q := by
  match pat with
  | [] => exact absurd rfl hp
  | a :: p =>
    obtain ⟨h1, h4, h2', h3'⟩ := hS
    have h2 : ∀ b, b <:+ q → b <+: r → b = [] ∨ b = r :=
      fun b hs hp2 => h2' b ((List.mem_tails b q).mpr hs) hp2
    have h3 : ∀ b, b <:+ r → b <+: q → b = [] ∨ b = r :=
      fun b hs hp2 => h3' b ((List.mem_tails b r).mpr hs) hp2
    exact repl_main a p q r hr h1 h4 h2 h3 s.length s (le_refl _) hbase

theorem replGo_fuel_ext (a : Char) (p q : PyStr) :
    ∀ f1 f2 s, s.length ≤ f1 → s.length ≤ f2 →
      replGo a p q f1 s = replGo a p q f2 s := by
  intro f1
  induction f1 with
  | zero =>
    intro f2 s h1 _
    have hs : s = [] := List.length_eq_zero.mp (Nat.le_zero.mp h1)
    subst hs
    cases f2 with
    | zero => rfl
    | succ f2 => rfl
  | succ f1 ih =>
    intro f2 s h1 h2
    match s with
    | [] =>
      cases f2 with
      | zero => rfl
      | succ f2 => rfl
    | c :: t =>
      cases f2 with
      | zero =>
        simp only [List.length_cons] at h2
        omega
      | succ f2 =>
        rw [replGo, replGo]
        simp only [List.length_cons] at h1 h2
        by_cases hm : (a :: p).isPrefixOf (c :: t)
        · rw [if_pos hm, if_pos hm]
          have hd : (t.drop p.length).length ≤ f1 := by
            simp only [List.length_drop]; omega
          have hd2 : (t.drop p.length).length ≤ f2 := by
            simp only [List.length_drop]; omega
          rw [ih f2 _ hd hd2]
        · rw [if_neg hm, if_neg hm]
          rw [ih f2 t (by omega) (by omega)]

theorem replGo_eq_self (a : Char) (p q : PyStr) :
    ∀ fuel s, ¬ (a :: p) <:+: s → replGo a p q fuel s = s := by
  intro fuel
  induction fuel with
  | zero => intro s _; rfl
  | succ fuel ih =>
    intro s hno
    match s with
    | [] => rfl
    | c :: t =>
      rw [replGo]
      by_cases hm : (a :: p).isPrefixOf (c :: t)
      · exact absurd (isPre_iff.mp hm).isInfix hno
      · rw [if_neg hm]
        rw [ih t fun hcon => hno (hcon.trans (List.suffix_cons c t).isInfix)]

/-- `str.replace` is the identity when the (nonempty) pattern is absent. -/
theorem replaceAll_eq_self (s pat q : PyStr) (hp : pat ≠ []) (h : ¬ pat <:+: s) :
    replaceAll s pat q = s := by
  match pat with
  | [] => exact absurd rfl hp
  | a :: p => exact replGo_eq_self a p q s.length s h

/-- `str.replace` on a string starting with the pattern: the head occurrence
is replaced and scanning continues after it. -/
theorem replaceAll_head_match (w pat q : PyStr) (hp : pat ≠ []) :
    replaceAll (pat ++ w) pat q = q ++ replaceAll w pat q := by
  match pat with
  | [] => exact absurd rfl hp
  | a :: p =>
    show replGo a p q ((a :: p ++ w).length) (a :: p ++ w) = q ++ replGo a p q w.length w
    have hchain : (a :: p ++ w) = a :: (p ++ w) := rfl
    rw [hchain]
    have hlen : (a :: (p ++ w)).length = (p ++ w).length + 1 := rfl
    rw [hlen, replGo]
    have hm : (a :: p).isPrefixOf (a :: (p ++ w)) :=
      isPre_iff.mpr (List.cons_prefix_cons.mpr ⟨rfl, List.prefix_append p w⟩)
    rw [if_pos hm]
    rw [List.drop_left]
    rw [replGo_fuel_ext a p q ((p ++ w).length) w.length w (by simp) (le_refl _)]

/-! ## Lemmas about `update_imports_in_tests` -/


theorem upd_tests_ne {old new : PyStr} {T Ta : Fs}
    (h : update_imports_in_tests old new T = .ok Ta)
    {f : PyStr} (hf : pyTestTarget f = false) : find? f Ta = find? f T := by
  induction T generalizing Ta with
  | file c => rw [update_imports_in_tests] at h; cases h; rfl
  | nil => rw [update_imports_in_tests] at h; cases h; rfl
  | cons n e rest ihe ihr =>
    cases e with
    | file c =>
      rw [update_imports_in_tests] at h
      by_cases hn : pyTestTarget n
      · rw [if_pos hn] at h
        have hnf : ¬ n = f := by
          intro hc; subst hc; rw [hn] at hf; exact Bool.noConfusion hf
        cases hrest : update_imports_in_tests old new rest with
        | error err =>
          rw [hrest] at h; simp only [Except.map] at h; exact Except.noConfusion h
        | ok r2 =>
          rw [hrest] at h
          simp only [Except.map, Except.ok.injEq] at h
          subst h
          simp only [find?, if_neg hnf]
          exact ihr hrest
      · rw [if_neg hn] at h
        cases hrest : update_imports_in_tests old new rest with
        | error err =>
          rw [hrest] at h; simp only [Except.map] at h; exact Except.noConfusion h
        | ok r2 =>
          rw [hrest] at h
          simp only [Except.map, Except.ok.injEq] at h
          subst h
          by_cases hnf : n = f
          · subst hnf; simp [find?]
          · simp only [find?, if_neg hnf]
            exact ihr hrest
    | nil =>
      rw [update_imports_in_tests] at h
      by_cases hn : pyTestTarget n
      · rw [if_pos hn] at h; exact Except.noConfusion h
      · rw [if_neg hn] at h
        cases hrest : update_imports_in_tests old new rest with
        | error err =>
          rw [hrest] at h; simp only [Except.map] at h; exact Except.noConfusion h
        | ok r2 =>
          rw [hrest] at h
          simp only [Except.map, Except.ok.injEq] at h
          subst h
          by_cases hnf : n = f
          · subst hnf; simp [find?]
          · simp only [find?, if_neg hnf]
            exact ihr hrest
    | cons m2 e2 r2 =>
      rw [update_imports_in_tests] at h
      by_cases hn : pyTestTarget n
      · rw [if_pos hn] at h; exact Except.noConfusion h
      · rw [if_neg hn] at h
        cases hrest : update_imports_in_tests old new rest with
        | error err =>
          rw [hrest] at h; simp only [Except.map] at h; exact Except.noConfusion h
        | ok r3 =>
          rw [hrest] at h
          simp only [Except.map, Except.ok.injEq] at h
          subst h
          by_cases hnf : n = f
          · subst hnf; simp [find?]
          · simp only [find?, if_neg hnf]
            exact ihr hrest

theorem upd_tests_target {old new : PyStr} {T Ta : Fs}
    (h : update_imports_in_tests old new T = .ok Ta)
    {f : PyStr} (hf : pyTestTarget f = true) :
    (∃ c, find? f T = some (.file c) ∧
      find? f Ta = some (.file (update_test_content c old new))) ∨
    (find? f T = none ∧ find? f Ta = none) := by
  induction T generalizing Ta with
  | file c => rw [update_imports_in_tests] at h; cases h; exact .inr ⟨rfl, rfl⟩
  | nil => rw [update_imports_in_tests] at h; cases h; exact .inr ⟨rfl, rfl⟩
  | cons n e rest ihe ihr =>
    cases e with
    | file c =>
      rw [update_imports_in_tests] at h
      by_cases hn : pyTestTarget n
      · rw [if_pos hn] at h
        cases hrest : update_imports_in_tests old new rest with
        | error err =>
          rw [hrest] at h; simp only [Except.map] at h; exact Except.noConfusion h
        | ok r2 =>
          rw [hrest] at h
          simp only [Except.map, Except.ok.injEq] at h
          subst h
          by_cases hnf : n = f
          · subst hnf
            exact .inl ⟨c, by simp [find?], by simp [find?]⟩
          · simp only [find?, if_neg hnf]
            exact ihr hrest
      · rw [if_neg hn] at h
        cases hrest : update_imports_in_tests old new rest with
        | error err =>
          rw [hrest] at h; simp only [Except.map] at h; exact Except.noConfusion h
        | ok r2 =>
          rw [hrest] at h
          simp only [Except.map, Except.ok.injEq] at h
          subst h
          have hnf : ¬ n = f := by
            intro hc; subst hc; rw [hf] at hn; exact hn rfl
          simp only [find?, if_neg hnf]
          exact ihr hrest
    | nil =>
      rw [update_imports_in_tests] at h
      by_cases hn : pyTestTarget n
      · rw [if_pos hn] at h; exact Except.noConfusion h
      · rw [if_neg hn] at h
        cases hrest : update_imports_in_tests old new rest with
        | error err =>
          rw [hrest] at h; simp only [Except.map] at h; exact Except.noConfusion h
        | ok r2 =>
          rw [hrest] at h
          simp only [Except.map, Except.ok.injEq] at h
          subst h
          have hnf : ¬ n = f := by
            intro hc; subst hc; rw [hf] at hn; exact hn rfl
          simp only [find?, if_neg hnf]
          exact ihr hrest
    | cons m2 e2 r2 =>
      rw [update_imports_in_tests] at h
      by_cases hn : pyTestTarget n
      · rw [if_pos hn] at h; exact Except.noConfusion h
      · rw [if_neg hn] at h
        cases hrest : update_imports_in_tests old new rest with
        | error err =>
          rw [hrest] at h; simp only [Except.map] at h; exact Except.noConfusion h
        | ok r3 =>
          rw [hrest] at h
          simp only [Except.map, Except.ok.injEq] at h
          subst h
          have hnf : ¬ n = f := by
            intro hc; subst hc; rw [hf] at hn; exact hn rfl
          simp only [find?, if_neg hnf]
          exact ihr hrest

theorem upd_tests_cons_shape {old new : PyStr} {n : PyStr} {e rest Ta : Fs}
    (h : update_imports_in_tests old new (.cons n e rest) = .ok Ta) :
    ∃ m2 e2 r2, Ta = .cons m2 e2 r2 := by
  cases e with
  | file c =>
    rw [update_imports_in_tests] at h
    by_cases hn : pyTestTarget n
    · rw [if_pos hn] at h
      cases hrest : update_imports_in_tests old new rest with
      | error err =>
        rw [hrest] at h; simp only [Except.map] at h; exact Except.noConfusion h
      | ok r2 =>
        rw [hrest] at h
        simp only [Except.map, Except.ok.injEq] at h
        exact ⟨_, _, _, h.symm⟩
    · rw [if_neg hn] at h
      cases hrest : update_imports_in_tests old new rest with
      | error err =>
        rw [hrest] at h; simp only [Except.map] at h; exact Except.noConfusion h
      | ok r2 =>
        rw [hrest] at h
        simp only [Except.map, Except.ok.injEq] at h
        exact ⟨_, _, _, h.symm⟩
  | nil =>
    rw [update_imports_in_tests] at h
    by_cases hn : pyTestTarget n
    · rw [if_pos hn] at h; exact Except.noConfusion h
    · rw [if_neg hn] at h
      cases hrest : update_imports_in_tests old new rest with
      | error err =>
        rw [hrest] at h; simp only [Except.map] at h; exact Except.noConfusion h
      | ok r2 =>
        rw [hrest] at h
        simp only [Except.map, Except.ok.injEq] at h
        exact ⟨_, _, _, h.symm⟩
  | cons m2 e2 r2 =>
    rw [update_imports_in_tests] at h
    by_cases hn : pyTestTarget n
    · rw [if_pos hn] at h; exact Except.noConfusion h
    · rw [if_neg hn] at h
      cases hrest : update_imports_in_tests old new rest with
      | error err =>
        rw [hrest] at h; simp only [Except.map] at h; exact Except.noConfusion h
      | ok r3 =>
        rw [hrest] at h
        simp only [Except.map, Except.ok.injEq] at h
        exact ⟨_, _, _, h.symm⟩

/-! ## Frame lemmas for the rewrite steps -/

theorem setFirst_cons_shape (k : PyStr) (v : Fs) (m : PyStr) (e r : Fs) :
    ∃ m2 e2 r2, setFirst k v (.cons m e r) = .cons m2 e2 r2 := by
  rw [setFirst]
  by_cases hmk : m = k
  · rw [if_pos hmk]; exact ⟨_, _, _, rfl⟩
  · rw [if_neg hmk]; exact ⟨_, _, _, rfl⟩

theorem lookup?_file_cons {c : PyStr} {y : PyStr} {ps : List PyStr} :
    lookup? (.file c) (y :: ps) = none := by
  rw [lookup?, find?]

theorem pyproject_frame {d d1 : Fs} {o n : PyStr}
    (h : pyproject_step d o n = .ok d1)
    {p : List PyStr} (hp : p ≠ ["pyproject.toml".data])
    {c : PyStr} (hl : lookup? d1 p = some (.file c)) :
    lookup? d p = some (.file c) := by
  rw [pyproject_step] at h
  cases hfe : find? ("pyproject.toml".data) d with
  | none => rw [hfe] at h; cases h; exact hl
  | some e0 =>
    rw [hfe] at h
    cases e0 with
    | nil => exact Except.noConfusion h
    | cons a b c2 => exact Except.noConfusion h
    | file c0 =>
      simp only [Except.ok.injEq] at h
      subst h
      cases p with
      | nil =>
        exfalso
        cases d with
        | file c2 => rw [find?] at hfe; cases hfe
        | nil => rw [find?] at hfe; cases hfe
        | cons m e r =>
          obtain ⟨m2, e2, r2, hshape⟩ := setFirst_cons_shape ("pyproject.toml".data)
            (.file (update_scripts_in_pyproject (rename_package_in_pyproject c0 n) o n)) m e r
          rw [lookup?, hshape] at hl
          cases hl
      | cons x ps =>
        by_cases hx : x = "pyproject.toml".data
        · subst hx
          have hfind := find?_setFirst_self
            (.file (update_scripts_in_pyproject (rename_package_in_pyproject c0 n) o n)) d
            (by rw [hfe]; rfl)
          cases ps with
          | nil => exact absurd rfl hp
          | cons y ps2 => simp [lookup?, hfind, find?] at hl
        · have hfs : find? x (setFirst ("pyproject.toml".data)
              (.file (update_scripts_in_pyproject (rename_package_in_pyproject c0 n) o n)) d)
              = find? x d := find?_setFirst_ne _ _ hx
          rw [lookup?] at hl ⊢
          rw [hfs] at hl
          exact hl

theorem find?_some_cons {k : PyStr} {t e : Fs} (h : find? k t = some e) :
    ∃ m a b, t = .cons m a b := by
  cases t with
  | file c => rw [find?] at h; cases h
  | nil => rw [find?] at h; cases h
  | cons m a b => exact ⟨m, a, b, rfl⟩

theorem renameFirst_cons_shape (o n m : PyStr) (a b : Fs) :
    ∃ m2 e2 r2, renameFirst o n (.cons m a b) = .cons m2 e2 r2 := by
  rw [renameFirst]
  by_cases hmo : m = o
  · rw [if_pos hmo]; exact ⟨_, _, _, rfl⟩
  · rw [if_neg hmo]; exact ⟨_, _, _, rfl⟩

theorem rename_frame_core {d srcDir S : Fs} {o n : PyStr}
    (hsd : find? ("src".data) d = some srcDir)
    (hfr : ∀ y, y ≠ o → y ≠ n → find? y S = find? y srcDir)
    (hshape : ∃ m2 e2 r2, S = .cons m2 e2 r2)
    {p : List PyStr}
    (ho : ¬ ["src".data, o] <+: p) (hn : ¬ ["src".data, n] <+: p)
    {c : PyStr} (hl : lookup? (setFirst ("src".data) S d) p = some (.file c)) :
    lookup? d p = some (.file c) := by
  cases p with
  | nil =>
    exfalso
    obtain ⟨m, a, b, rfl⟩ := find?_some_cons hsd
    obtain ⟨m2, e2, r2, hshape2⟩ := setFirst_cons_shape ("src".data) S m a b
    rw [lookup?, hshape2] at hl
    cases hl
  | cons x ps =>
    by_cases hx : x = "src".data
    · subst hx
      have hfind := find?_setFirst_self S d (by rw [hsd]; rfl)
      simp only [lookup?, hfind] at hl
      simp only [lookup?, hsd]
      cases ps with
      | nil =>
        exfalso
        obtain ⟨m2, e2, r2, rfl⟩ := hshape
        simp only [lookup?] at hl
        cases hl
      | cons y ps2 =>
        have hyo : y ≠ o := by
          intro hc; subst hc
          exact ho ⟨ps2, rfl⟩
        have hyn : y ≠ n := by
          intro hc; subst hc
          exact hn ⟨ps2, rfl⟩
        simp only [lookup?] at hl ⊢
        rw [hfr y hyo hyn] at hl
        exact hl
    · have hfs : find? x (setFirst ("src".data) S d) = find? x d :=
        find?_setFirst_ne _ _ hx
      simp only [lookup?] at hl ⊢
      rw [hfs] at hl
      exact hl

theorem rename_frame {d d2 : Fs} {o n : PyStr}
    (h : rename_src_directory d o n = .ok d2)
    {p : List PyStr}
    (ho : ¬ ["src".data, o] <+: p) (hn : ¬ ["src".data, n] <+: p)
    {c : PyStr} (hl : lookup? d2 p = some (.file c)) :
    lookup? d p = some (.file c) := by
  rw [rename_src_directory] at h
  cases hsd : find? ("src".data) d with
  | none => simp only [hsd] at h; cases h; exact hl
  | some srcDir =>
    simp only [hsd] at h
    cases hold : find? o srcDir with
    | none => simp only [hold] at h; cases h; exact hl
    | some oldE =>
      simp only [hold] at h
      by_cases hon : o = n
      · rw [if_pos hon] at h; cases h; exact hl
      · rw [if_neg hon] at h
        have hno : n ≠ o := fun hc => hon hc.symm
        cases hnew : find? n srcDir with
        | none =>
          simp only [hnew] at h
          simp only [Except.ok.injEq] at h
          subst h
          refine rename_frame_core hsd ?_ ?_ ho hn hl
          · exact fun y hy1 hy2 => find?_renameFirst_ne srcDir hy1 hy2
          · obtain ⟨m, a, b, rfl⟩ := find?_some_cons hold
            exact renameFirst_cons_shape o n m a b
        | some target =>
          have hfr : ∀ y, y ≠ o → y ≠ n →
              find? y (setFirst n oldE (removeFirst o srcDir)) = find? y srcDir := by
            intro y hy1 hy2
            rw [find?_setFirst_ne _ _ hy2, find?_removeFirst_ne _ hy1]
          have hshape : ∃ m2 e2 r2,
              setFirst n oldE (removeFirst o srcDir) = .cons m2 e2 r2 := by
            have hfn : find? n (removeFirst o srcDir) = some target := by
              rw [find?_removeFirst_ne _ hno]; exact hnew
            obtain ⟨m, a, b, hmab⟩ := find?_some_cons hfn
            rw [hmab]
            exact setFirst_cons_shape n oldE m a b
          simp only [hnew] at h
          cases target with
          | file ct =>
            cases oldE with
            | file co =>
              simp only [Except.ok.injEq] at h
              subst h
              exact rename_frame_core hsd hfr hshape ho hn hl
            | nil => exact Except.noConfusion h
            | cons a2 b2 c2 => exact Except.noConfusion h
          | nil =>
            cases oldE with
            | file co => exact Except.noConfusion h
            | nil =>
              simp only [Except.ok.injEq] at h
              subst h
              exact rename_frame_core hsd hfr hshape ho hn hl
            | cons a2 b2 c2 =>
              simp only [Except.ok.injEq] at h
              subst h
              exact rename_frame_core hsd hfr hshape ho hn hl
          | cons mt et rt => exact Except.noConfusion h

theorem tests_frame {d d3 : Fs} {o n : PyStr}
    (h : tests_step d o n = .ok d3)
    {p : List PyStr}
    (hts : ∀ f, p = ["tests".data, f] → pyTestTarget f = false)
    {c : PyStr} (hl : lookup? d3 p = some (.file c)) :
    lookup? d p = some (.file c) := by
  rw [tests_step] at h
  cases hfe : find? ("tests".data) d with
  | none => simp only [hfe] at h; cases h; exact hl
  | some T =>
    simp only [hfe] at h
    cases hupd : update_imports_in_tests o n T with
    | error err =>
      rw [hupd] at h; simp only [Except.map] at h; exact Except.noConfusion h
    | ok Ta =>
      rw [hupd] at h
      simp only [Except.map, Except.ok.injEq] at h
      subst h
      cases p with
      | nil =>
        exfalso
        obtain ⟨m, a, b, rfl⟩ := find?_some_cons hfe
        obtain ⟨m2, e2, r2, hs2⟩ := setFirst_cons_shape ("tests".data) Ta m a b
        rw [lookup?, hs2] at hl
        cases hl
      | cons x ps =>
        by_cases hx : x = "tests".data
        · subst hx
          have hfind := find?_setFirst_self Ta d (by rw [hfe]; rfl)
          simp only [lookup?, hfind] at hl
          simp only [lookup?, hfe]
          cases ps with
          | nil =>
            simp only [lookup?] at hl ⊢
            cases T with
            | file c0 =>
              rw [update_imports_in_tests] at hupd
              cases hupd
              exact hl
            | nil =>
              rw [update_imports_in_tests] at hupd
              cases hupd
              exact absurd (Option.some.inj hl) (fun hc => Fs.noConfusion hc)
            | cons m0 e0 r0 =>
              obtain ⟨m2, e2, r2, rfl⟩ := upd_tests_cons_shape hupd
              exact absurd (Option.some.inj hl) (fun hc => Fs.noConfusion hc)
          | cons f ps2 =>
            by_cases hft : pyTestTarget f
            · cases ps2 with
              | nil =>
                have hfalse := hts f rfl
                rw [hfalse] at hft
                exact Bool.noConfusion hft
              | cons g ps3 =>
                exfalso
                rcases upd_tests_target hupd hft with ⟨c0, hT, hTa⟩ | ⟨hT, hTa⟩
                · simp [lookup?, hTa, find?] at hl
                · simp [lookup?, hTa] at hl
            · have hff : pyTestTarget f = false := by
                revert hft; cases pyTestTarget f <;> simp
              have hfr := upd_tests_ne hupd hff
              simp only [lookup?] at hl ⊢
              rw [hfr] at hl
              exact hl
        · have hfs : find? x (setFirst ("tests".data) Ta d) = find? x d :=
            find?_setFirst_ne _ _ hx
          simp only [lookup?] at hl ⊢
          rw [hfs] at hl
          exact hl

theorem update_test_content_eq (c o n : PyStr) :
    update_test_content c o n =
      replaceAll (replaceAll c (fromPat o) (fromPat n)) (impPat o) (impPat n) := rfl

theorem fromPat_ne_nil (m : PyStr) : fromPat m ≠ [] := fun h => List.noConfusion h

theorem impPat_ne_nil (m : PyStr) : impPat m ≠ [] := fun h => List.noConfusion h

/-- The content of a rewritten test file is `update_test_content` of some
original content. -/
theorem tests_step_content {d2 d : Fs} {o n : PyStr}
    (h : tests_step d2 o n = .ok d) {f : PyStr} (hf : pyTestTarget f = true)
    {c : PyStr} (hl : lookup? d ["tests".data, f] = some (.file c)) :
    ∃ c0, c = update_test_content c0 o n := by
  rw [tests_step] at h
  cases hfe : find? ("tests".data) d2 with
  | none =>
    simp only [hfe] at h
    cases h
    simp [lookup?, hfe] at hl
  | some T =>
    simp only [hfe] at h
    cases hupd : update_imports_in_tests o n T with
    | error err =>
      rw [hupd] at h; simp only [Except.map] at h; exact Except.noConfusion h
    | ok Ta =>
      rw [hupd] at h
      simp only [Except.map, Except.ok.injEq] at h
      subst h
      have hfind := find?_setFirst_self Ta d2 (by rw [hfe]; rfl)
      simp only [lookup?, hfind] at hl
      rcases upd_tests_target hupd hf with ⟨c0, hT, hTa⟩ | ⟨hT, hTa⟩
      · rw [hTa] at hl
        simp only [lookup?] at hl
        exact ⟨c0, (Fs.file.inj (Option.some.inj hl)).symm⟩
      · rw [hTa] at hl
        cases hl

/-! ## The claims -/

/-- C1 (amended): every string containing a character outside `[A-Za-z0-9_]`
is rejected by `is_valid_name` — and the orchestrator then exits with status
1 leaving the working directory unchanged, so no directory is created —
unless the string is a non-empty run of word characters followed by a single
trailing newline, which the Python regex anchor `$` accepts. -/
theorem C1_invalid_name_rejected (name : PyStr) (env : Env) (template : PyStr)
    (hbad : name.any (fun ch => !isWordChar ch) = true)
    (hnl : (name.getLast? == some '\n' && !name.dropLast.isEmpty
      && name.dropLast.all isWordChar) = false) :
    is_valid_name name = false ∧ runMain env name template = (.exited 1, env.cwd) := by
  have h1 : name.all isWordChar = false := by
    rcases List.any_eq_true.mp hbad with ⟨ch, hmem, hch⟩
    cases hall : name.all isWordChar with
    | false => rfl
    | true =>
      have := List.all_eq_true.mp hall ch hmem
      rw [this] at hch
      cases hch
  have hval : is_valid_name name = false := by
    rw [is_valid_name, h1, hnl]
    simp
  refine ⟨hval, ?_⟩
  rw [runMain, hval]
  simp

/-- C1 witness: `bad-name` contains `-` and is rejected; the run exits 1 with
the working directory untouched. -/
theorem C1_witness :
    is_valid_name ("bad-name".data) = false ∧
      runMain
        { cwd := .nil, resources_raises := false, installed := none, dev := none,
          git_available := true, git_exit := 0 }
        ("bad-name".data) ("hello_world".data) = (.exited 1, .nil) :=
  C1_invalid_name_rejected ("bad-name".data)
    { cwd := .nil, resources_raises := false, installed := none, dev := none,
      git_available := true, git_exit := 0 }
    ("hello_world".data) (by decide) (by decide)

/-- C1 counterexample: `"abc\n"` contains `'\n'`, a character outside
`[A-Za-z0-9_]`, yet `is_valid_name` accepts it — Python's `$` matches just
before a trailing newline — so the claim as stated is false. -/
theorem C1_counterexample :
    ('\n' ∈ "abc\n".data ∧ isWordChar '\n' = false) ∧
      is_valid_name ("abc\n".data) = true := by decide

/-- C2: after `copy_template`, a path with any component in the exclusion
set resolves to nothing in the destination, and every other path resolves to
exactly the (recursively filtered) source entry — in particular every copied
file is byte-for-byte identical to its source. -/
theorem C2_copy_template_excludes (t : Fs) (p : List PyStr) :
    lookup? (copy_template t) p =
      if p.any ignore_function then none else (lookup? t p).map copy_template :=
  lookup?_copy_template p t

/-- C3: repo-init behaviour evaluated on a concrete scaffold.  With a `git`
executable present, `main` ignores the exit status of `git init` (any exit
code still yields the success banner, outcome `.ok`); with no `git`
executable, `subprocess.run` raises `FileNotFoundError` and the run crashes
before the banner — so an unavailable version-control tool is *not*
tolerated, contradicting the claim. -/
theorem C3_git_init_behavior :
    (∀ k : Nat,
      (runMain
        { cwd := .nil, resources_raises := false,
          installed := some (.cons ("main.py".data) (.file ("x".data)) .nil), dev := none,
          git_available := true, git_exit := k }
        ("myapp".data) ("hello_world".data)).1 = .ok) ∧
    (runMain
      { cwd := .nil, resources_raises := false,
        installed := some (.cons ("main.py".data) (.file ("x".data)) .nil), dev := none,
        git_available := false, git_exit := 0 }
      ("myapp".data) ("hello_world".data)).1 = .crashed .fileNotFoundError :=
  ⟨fun _ => rfl, by decide⟩

/-- C5: for a valid name whose destination entry already exists in the
working directory (file or directory), `main` exits with status 1 and the
working directory — the pre-existing entry and all its contents included —
is returned unchanged: no copy has happened. -/
theorem C5_existing_destination (env : Env) (name template : PyStr)
    (hv : is_valid_name name = true) (hex : (find? name env.cwd).isSome = true) :
    runMain env name template = (.exited 1, env.cwd) := by
  rw [runMain, hv]
  simp [hex]

/-- C5 witness: destination `myapp` already exists with a file inside; the
run exits 1 and the directory with its contents is untouched. -/
theorem C5_witness :
    runMain
      { cwd := .cons ("myapp".data) (.cons ("f.txt".data) (.file ("data".data)) .nil) .nil,
        resources_raises := false, installed := none, dev := none,
        git_available := true, git_exit := 0 }
      ("myapp".data) ("hello_world".data)
      = (.exited 1,
        .cons ("myapp".data) (.cons ("f.txt".data) (.file ("data".data)) .nil) .nil) :=
  C5_existing_destination _ ("myapp".data) ("hello_world".data) (by decide) (by decide)

/-- C4: frame property of the copy-then-rewrite pipeline.  Every file of the
destination whose path is not the manifest `pyproject.toml`, not a non-init
`*.py` file directly under `tests`, and does not descend into the renamed
package directory (`src/old` or `src/new`), has content byte-for-byte
identical to its counterpart in the (well-formed) template source tree. -/
theorem C4_untouched_files_identical (t : Fs) (old new : PyStr) (d : Fs)
    (hwf : wf t = true) (h : scaffold t old new = .ok d)
    (p : List PyStr)
    (hpy : p ≠ ["pyproject.toml".data])
    (hts : ∀ f, p = ["tests".data, f] → pyTestTarget f = false)
    (ho : ¬ ["src".data, old] <+: p)
    (hn : ¬ ["src".data, new] <+: p)
    (c : PyStr) (hl : lookup? d p = some (.file c)) :
    lookup? t p = some (.file c) := by
  rw [scaffold] at h
  cases h1 : pyproject_step (copy_template t) old new with
  | error e => rw [h1] at h; simp only [Except.bind] at h; exact Except.noConfusion h
  | ok d1 =>
    rw [h1] at h
    simp only [Except.bind] at h
    cases h2 : rename_src_directory d1 old new with
    | error e => rw [h2] at h; simp only [Except.bind] at h; exact Except.noConfusion h
    | ok d2 =>
      rw [h2] at h
      simp only [Except.bind] at h
      have hl2 := tests_frame h hts hl
      have hl1 := rename_frame h2 ho hn hl2
      have hl0 := pyproject_frame h1 hpy hl1
      rw [lookup?_copy_template] at hl0
      by_cases hig : p.any ignore_function
      · rw [if_pos hig] at hl0; cases hl0
      · rw [if_neg hig] at hl0
        cases hlt : lookup? t p with
        | none => rw [hlt] at hl0; cases hl0
        | some e =>
          rw [hlt] at hl0
          simp only [Option.map] at hl0
          have hce : copy_template e = .file c := Option.some.inj hl0
          have hwfe : wf e = true := wf_lookup? hwf hlt
          rw [copy_template_file_inv hwfe hce]

/-- C4 witness: a template with a single file `README.md`; the pipeline
leaves it byte-identical and the theorem recovers it from the source. -/
theorem C4_witness :
    lookup? (.cons ("README.md".data) (.file ("hi".data)) .nil) ["README.md".data]
      = some (.file ("hi".data)) :=
  C4_untouched_files_identical
    (.cons ("README.md".data) (.file ("hi".data)) .nil) ("nlp".data) ("myapp".data)
    (.cons ("README.md".data) (.file ("hi".data)) .nil)
    (by decide) (by rfl) ["README.md".data]
    (by decide) (by intro f hping; simp at hping) (by decide) (by decide)
    ("hi".data) (by decide)

/-- C6 (amended): after a successful pipeline run, no `*.py` file directly
under the destination's `tests` directory (other than `__init__.py`)
contains `from old.` or `import old` as a substring — provided the two
replacement strings can neither keep nor re-create the patterns
(`SafeRepl`; e.g. the old name must not be a prefix of the new name).
Files elsewhere in the tree, non-`*.py` files, and nested test files are
not rewritten at all, which is the correction to "no file anywhere". -/
theorem C6_no_old_imports (t : Fs) (old new : PyStr) (d : Fs)
    (h : scaffold t old new = .ok d)
    (hS1 : SafeRepl (fromPat old) (fromPat new))
    (hS2 : SafeRepl (impPat old) (impPat new))
    (hS3 : SafeRepl (fromPat old) (impPat new))
    (f : PyStr) (hf : pyTestTarget f = true) (c : PyStr)
    (hl : lookup? d ["tests".data, f] = some (.file c)) :
    ¬ fromPat old <:+: c ∧ ¬ impPat old <:+: c := by
  rw [scaffold] at h
  cases h1 : pyproject_step (copy_template t) old new with
  | error e => rw [h1] at h; simp only [Except.bind] at h; exact Except.noConfusion h
  | ok d1 =>
    rw [h1] at h
    simp only [Except.bind] at h
    cases h2 : rename_src_directory d1 old new with
    | error e => rw [h2] at h; simp only [Except.bind] at h; exact Except.noConfusion h
    | ok d2 =>
      rw [h2] at h
      simp only [Except.bind] at h
      obtain ⟨c0, rfl⟩ := tests_step_content h hf hl
      rw [update_test_content_eq]
      constructor
      · refine replaceAll_no_occ _ _ _ _ (impPat_ne_nil old) (fromPat_ne_nil old) hS3
          (.inr ?_)
        exact replaceAll_no_occ _ _ _ _ (fromPat_ne_nil old) (fromPat_ne_nil old) hS1
          (.inl rfl)
      · exact replaceAll_no_occ _ _ _ _ (impPat_ne_nil old) (impPat_ne_nil old) hS2
          (.inl rfl)

/-- C6 witness: scaffolding a template whose `tests/test_main.py` imports
the module `nlp`, with new name `myapp`; afterwards the file contains
neither `from nlp.` nor `import nlp`. -/
theorem C6_witness :
    ¬ fromPat ("nlp".data) <:+: ("from myapp.main import app and import myapp".data) ∧
    ¬ impPat ("nlp".data) <:+: ("from myapp.main import app and import myapp".data) :=
  C6_no_old_imports
    (.cons ("tests".data)
      (.cons ("test_main.py".data)
        (.file ("from nlp.main import app and import nlp".data)) .nil) .nil)
    ("nlp".data) ("myapp".data)
    (.cons ("tests".data)
      (.cons ("test_main.py".data)
        (.file ("from myapp.main import app and import myapp".data)) .nil) .nil)
    (by rfl) (by decide) (by decide) (by decide)
    ("test_main.py".data) (by decide)
    ("from myapp.main import app and import myapp".data) (by decide)

/-- C6 counterexample: a root-level file `notes.txt` containing `import nlp`
is copied verbatim and never rewritten, so after the pipeline the
destination still contains the old module name as an import target although
the project name `myapp` differs from `nlp` — the claim as stated is false. -/
theorem C6_counterexample :
    scaffold (.cons ("notes.txt".data) (.file ("import nlp".data)) .nil)
        ("nlp".data) ("myapp".data)
      = .ok (.cons ("notes.txt".data) (.file ("import nlp".data)) .nil) ∧
    impPat ("nlp".data) <:+: ("import nlp".data) ∧
    ("myapp".data ≠ "nlp".data) :=
  ⟨by rfl, by decide, by decide⟩

/-- C7 (amended): `update_imports_in_tests` rewrites exactly the `*.py`
entries directly under the tests directory other than `__init__.py` — each
such file's content becomes `update_test_content` (the two literal
substitutions, written back) of the original — and leaves every other
directly-contained entry, in particular files with any other extension,
untouched.  The correction: the claim's "regardless of its extension" does
not hold, since the glob selects only `*.py`. -/
theorem C7_rewrites_only_py_tests (old new : PyStr) (T Ta : Fs)
    (h : update_imports_in_tests old new T = .ok Ta) (f : PyStr) :
    (pyTestTarget f = true → ∀ c, find? f T = some (.file c) →
      find? f Ta = some (.file (update_test_content c old new))) ∧
    (pyTestTarget f = false → find? f Ta = find? f T) := by
  constructor
  · intro hf c hc
    rcases upd_tests_target h hf with ⟨c0, hT, hTa⟩ | ⟨hT, hTa⟩
    · rw [hc] at hT
      cases Fs.file.inj (Option.some.inj hT)
      exact hTa
    · rw [hc] at hT
      cases hT
  · intro hf
    exact upd_tests_ne h hf

/-- C7 witness: a tests directory holding `test_main.py` and `data.txt`,
both containing `import nlp`: the `.py` file is rewritten to `import
myapp`, the `.txt` file is left untouched. -/
theorem C7_witness :
    find? ("test_main.py".data)
        (.cons ("test_main.py".data) (.file ("import myapp".data))
          (.cons ("data.txt".data) (.file ("import nlp".data)) .nil))
      = some (.file (update_test_content ("import nlp".data) ("nlp".data) ("myapp".data))) ∧
    find? ("data.txt".data)
        (.cons ("test_main.py".data) (.file ("import myapp".data))
          (.cons ("data.txt".data) (.file ("import nlp".data)) .nil))
      = find? ("data.txt".data)
        (.cons ("test_main.py".data) (.file ("import nlp".data))
          (.cons ("data.txt".data) (.file ("import nlp".data)) .nil)) :=
  ⟨(C7_rewrites_only_py_tests ("nlp".data) ("myapp".data)
      (.cons ("test_main.py".data) (.file ("import nlp".data))
        (.cons ("data.txt".data) (.file ("import nlp".data)) .nil))
      (.cons ("test_main.py".data) (.file ("import myapp".data))
        (.cons ("data.txt".data) (.file ("import nlp".data)) .nil))
      (by rfl) ("test_main.py".data)).1 (by decide) ("import nlp".data) (by decide),
    (C7_rewrites_only_py_tests ("nlp".data) ("myapp".data)
      (.cons ("test_main.py".data) (.file ("import nlp".data))
        (.cons ("data.txt".data) (.file ("import nlp".data)) .nil))
      (.cons ("test_main.py".data) (.file ("import myapp".data))
        (.cons ("data.txt".data) (.file ("import nlp".data)) .nil))
      (by rfl) ("data.txt".data)).2 (by decide)⟩

/-- C7 counterexample: a file `helper.txt` directly under tests containing
`import nlp` is returned byte-identical by `update_imports_in_tests` (the
glob selects only `*.py`), although the substitution the claim prescribes
would have changed it — so "regardless of its extension" is false. -/
theorem C7_counterexample :
    update_imports_in_tests ("nlp".data) ("myapp".data)
        (.cons ("helper.txt".data) (.file ("import nlp".data)) .nil)
      = .ok (.cons ("helper.txt".data) (.file ("import nlp".data)) .nil) ∧
    update_test_content ("import nlp".data) ("nlp".data) ("myapp".data)
      ≠ ("import nlp".data) :=
  ⟨by rfl, by decide⟩

/-- C8: template resolution tries the installed-resource location first and
returns it exactly when it exists on disk (a raise from `resources.files`
counts as absence); only otherwise is the development-mode location — the
fixed relative offset `dev_template_path` from the program's own file,
joined with the template's source package name — consulted; and when
neither location exists, `main` reports the template-not-found error, exits
with status 1, and the working directory is unchanged, so no destination
directory has been created. -/
theorem C8_template_resolution (env : Env) :
    (env.resources_raises = false → ∀ t, env.installed = some t →
      resolveTemplate env = some (.installedLoc, t)) ∧
    ((env.resources_raises = true ∨ env.installed = none) →
      resolveTemplate env = env.dev.map (fun t => (.devLoc, t))) ∧
    (∀ parts pkg, dev_template_path parts pkg =
      parts.dropLast.dropLast.dropLast ++ ["packages".data, pkg]) ∧
    (∀ name template pr, resolveTemplate env = none →
      is_valid_name name = true → find? name env.cwd = none →
      _template_map template = some pr →
      runMain env name template = (.exited 1, env.cwd)) := by
  refine ⟨?_, ?_, fun parts pkg => rfl, ?_⟩
  · intro hr t hi
    simp [resolveTemplate, hr, hi]
  · intro hcase
    rcases hcase with hr | hi
    · simp [resolveTemplate, hr]
    · cases hr : env.resources_raises <;> simp [resolveTemplate, hr, hi]
  · intro name template pr hres hv hfind hmap
    rw [runMain, hv]
    simp only [Bool.not_true, Bool.false_eq_true, if_false]
    rw [hfind]
    simp only [Option.isSome_none, Bool.false_eq_true, if_false]
    rw [hmap, hres]

/-- C8 witness: with the installed location present the resolver picks it
(whatever the development location holds); with neither present, a valid
fresh run exits 1 leaving the working directory empty. -/
theorem C8_witness :
    resolveTemplate
      { cwd := .nil, resources_raises := false, installed := some (.file ("x".data)),
        dev := some .nil, git_available := true, git_exit := 0 }
      = some (.installedLoc, .file ("x".data)) ∧
    runMain
      { cwd := .nil, resources_raises := false, installed := none, dev := none,
        git_available := true, git_exit := 0 }
      ("myapp".data) ("nlp".data) = (.exited 1, .nil) :=
  ⟨(C8_template_resolution
      { cwd := .nil, resources_raises := false, installed := some (.file ("x".data)),
        dev := some .nil, git_available := true, git_exit := 0 }).1
      rfl (.file ("x".data)) rfl,
    (C8_template_resolution
      { cwd := .nil, resources_raises := false, installed := none, dev := none,
        git_available := true, git_exit := 0 }).2.2.2
      ("myapp".data) ("nlp".data) ("template-nlp".data, "nlp".data)
      (by decide) (by decide) (by decide) (by decide)⟩

/-- C9: with no template option the scaffold uses the default `hello_world`,
whose descriptor in `_template_map` is
`("template-hello-world", "hello_world")`; a supplied option is accepted
exactly when it belongs to the closed choice set `_choices`, which is the
five-element set of the claim. -/
theorem C9_default_template :
    parse_template_option none = some ("hello_world".data) ∧
    _template_map ("hello_world".data) =
      some ("template-hello-world".data, "hello_world".data) ∧
    (∀ t, (parse_template_option (some t)).isSome = _choices.contains t) ∧
    _choices = ["hello_world".data, "advanced".data, "nlp".data,
      "langchain".data, "llama".data] := by
  refine ⟨rfl, by decide, ?_, rfl⟩
  intro t
  rw [parse_template_option]
  cases hc : _choices.contains t with
  | false => rw [if_neg (by simp [hc])]; rfl
  | true => rw [if_pos (by simp [hc])]; rfl

/-- C10: the test-import substitution is plain substring replacement, so an
occurrence of `import old` standing as a proper prefix of a longer
identifier (`import oldw`) is still rewritten, yielding an import of the
different module `neww`.  The hypotheses only rule out further occurrences
of the patterns elsewhere in the content. -/
theorem C10_prefix_overreplacement (old new w : PyStr)
    (h1 : ¬ fromPat old <:+: impPat old ++ w)
    (h2 : ¬ impPat old <:+: w) :
    update_test_content (impPat old ++ w) old new = impPat new ++ w := by
  rw [update_test_content_eq]
  rw [replaceAll_eq_self _ _ _ (fromPat_ne_nil old) h1]
  rw [replaceAll_head_match w (impPat old) (impPat new) (impPat_ne_nil old)]
  rw [replaceAll_eq_self _ _ _ (impPat_ne_nil old) h2]

/-- C10 witness: with old module `nlp`, the content `import nlp_extra` is
rewritten to `import myapp_extra`, an import of an unrelated module. -/
theorem C10_witness :
    update_test_content ("import nlp_extra".data) ("nlp".data) ("myapp".data)
      = ("import myapp_extra".data) :=
  C10_prefix_overreplacement ("nlp".data) ("myapp".data) ("_extra".data)
    (by decide) (by decide)
